import Mathlib

/-!
Shallow embedding of the tuicr diff core: the diff normalizer
(`src/git/diff.rs`), the highlight compositor (`src/syntax/mod.rs`), and the
context-gap engine (re-exported from `src/git/mod.rs`).  Backend collaborators
(libgit2 deltas, patches, syntect tokenization) are modelled as explicit data
and function parameters; machine integers are Nat/Int.
-/

set_option autoImplicit false

namespace Tuicr

/-! ## Colors, styles and spans (ratatui model, as used by `src/syntax/mod.rs`) -/

/-- An RGB color, the only constructor the highlighter uses (`Color::Rgb`). -/
structure Color where
  r : Nat
  g : Nat
  b : Nat
deriving DecidableEq, Repr

/-- A ratatui text style: foreground, background and the three font modifiers
the converter in `highlight_file_lines` can set. -/
structure Style where
  fg : Option Color
  bg : Option Color
  bold : Bool
  italic : Bool
  underlined : Bool
deriving DecidableEq, Repr

/-- `Style::default()`. -/
def Style.default : Style :=
  { fg := none, bg := none, bold := false, italic := false, underlined := false }

/-- `style.fg(color)`: set the foreground, leave everything else. -/
def Style.set_fg (st : Style) (c : Color) : Style :=
  { st with fg := some c }

/-- `style.bg(color)`: set the background, leave everything else. -/
def Style.set_bg (st : Style) (c : Color) : Style :=
  { st with bg := some c }

/-- The ratatui modifiers used by the converter. -/
inductive Modifier where
  | bold
  | italic
  | underlined
deriving DecidableEq, Repr

/-- `style.add_modifier(m)`. -/
def Style.add_modifier (st : Style) (m : Modifier) : Style :=
  match m with
  | .bold => { st with bold := true }
  | .italic => { st with italic := true }
  | .underlined => { st with underlined := true }

/-- A syntect color (`style.foreground`), r/g/b components. -/
structure SynColor where
  r : Nat
  g : Nat
  b : Nat
deriving DecidableEq, Repr

/-- The syntect font-style flags inspected by the converter. -/
structure SynFontStyle where
  bold : Bool
  italic : Bool
  underline : Bool
deriving DecidableEq, Repr

/-- A syntect style as consumed by `highlight_file_lines`. -/
structure SynStyle where
  foreground : SynColor
  font_style : SynFontStyle
deriving DecidableEq, Repr

/-! ## Domain model (`src/model`, fields exactly as used by `src/git/diff.rs`) -/

/-- Modelled from the spec: the `LineOrigin` enum of `src/model` is not among
the provided sources; variants from spec section 3 and the match arms of
`parse_hunks`. -/
inductive LineOrigin where
  | addition
  | deletion
  | context
deriving DecidableEq, Repr

/-- Modelled from the spec: the `FileStatus` enum of `src/model` is not among
the provided sources; variants from spec section 3 and the match arms of
`parse_diff`. -/
inductive FileStatus where
  | added
  | deleted
  | modified
  | renamed
  | copied
deriving DecidableEq, Repr

/-- A file path, abstracted to the two components `get_syntax` inspects
(`std::path::Path::extension` and `file_name`). -/
structure PathBuf where
  extension : Option String
  file_name : Option String
deriving DecidableEq, Repr

/-- Modelled from the spec: `DiffLine` of `src/model` is not among the provided
sources; fields from spec section 3 and the construction in `parse_hunks`. -/
structure DiffLine where
  origin : LineOrigin
  content : String
  old_lineno : Option Nat
  new_lineno : Option Nat
  highlighted_spans : Option (List (Style × String))
deriving DecidableEq, Repr

/-- Modelled from the spec: `DiffHunk` of `src/model` is not among the provided
sources; fields from spec section 3 and the construction in `parse_hunks`. -/
structure DiffHunk where
  header : String
  lines : List DiffLine
  old_start : Nat
  old_count : Nat
  new_start : Nat
  new_count : Nat
deriving DecidableEq, Repr

/-- Modelled from the spec: `DiffFile` of `src/model` is not among the provided
sources; fields from spec section 3 and the construction in `parse_diff`. -/
structure DiffFile where
  old_path : Option PathBuf
  new_path : Option PathBuf
  status : FileStatus
  hunks : List DiffHunk
  is_binary : Bool
deriving DecidableEq, Repr

/-- An opaque backend (libgit2) error, propagated but never inspected. -/
structure GitErr where
  msg : String
deriving DecidableEq, Repr

/-- Modelled from the spec: `TuicrError` of `src/error.rs` is not among the
provided sources; kinds from spec section 7 (`Unresolved` is a resolution
value, not an error constructor). -/
inductive TuicrError where
  | noChanges
  | invalidRange
  | gapIntegrity
  | backend (e : GitErr)
deriving DecidableEq, Repr

/-! ## Highlight compositor (`src/syntax/mod.rs`)

The syntect collaborator is abstracted: `Γ` is the type of grammar handles
(`SyntaxReference`), `σ` the tokenizer state carried by `HighlightLines`
across the lines of one file. -/

/-- The highlighter service: grammar lookup tables, the stateful per-line
tokenizer, and the two diff background colors. -/
structure SyntaxHighlighter (Γ σ : Type) where
  find_syntax_by_extension : String → Option Γ
  find_syntax_by_name : String → Option Γ
  init_grammar : Γ → σ
  highlight_line : Γ → σ → String → Option (σ × List (SynStyle × String))
  add_bg : Color
  del_bg : Color

variable {Γ σ : Type}

/-- Grammar resolution, embedding `SyntaxHighlighter::get_syntax`: try the
path extension first, then fall back to the exact file name. -/
def grammar_for (H : SyntaxHighlighter Γ σ) (file_path : PathBuf) : Option Γ :=
  match file_path.extension.bind H.find_syntax_by_extension with
  | some s => some s
  | none => file_path.file_name.bind H.find_syntax_by_name

/-- Conversion of one syntect range to a ratatui span, embedding the closure
inside `highlight_file_lines`: rgb foreground plus bold/italic/underline. -/
def convert_span (p : SynStyle × String) : Style × String :=
  let fg_color := Color.mk p.1.foreground.r p.1.foreground.g p.1.foreground.b
  let st := Style.set_fg Style.default fg_color
  let st := if p.1.font_style.bold then st.add_modifier .bold else st
  let st := if p.1.font_style.italic then st.add_modifier .italic else st
  let st := if p.1.font_style.underline then st.add_modifier .underlined else st
  (st, p.2)

/-- The per-line loop of `highlight_file_lines`: thread the tokenizer state
through the lines; any tokenizer failure aborts the whole call (the source
uses `.ok()?`). -/
def highlight_lines_go (H : SyntaxHighlighter Γ σ) (g : Γ) :
    σ → List String → Option (List (List (Style × String)))
  | _, [] => some []
  | st, line :: rest =>
    match H.highlight_line g st line with
    | none => none
    | some (st2, ranges) =>
      match highlight_lines_go H g st2 rest with
      | none => none
      | some tail => some ((ranges.map convert_span) :: tail)

/-- Embedding of `SyntaxHighlighter::highlight_file_lines`. -/
def highlight_file_lines (H : SyntaxHighlighter Γ σ) (file_path : PathBuf)
    (lines : List String) : Option (List (List (Style × String))) :=
  match grammar_for H file_path with
  | none => none
  | some g => highlight_lines_go H g (H.init_grammar g) lines

/-- Embedding of `SyntaxHighlighter::apply_diff_background`. -/
def apply_diff_background (H : SyntaxHighlighter Γ σ)
    (spans : List (Style × String)) (origin : LineOrigin) : List (Style × String) :=
  match origin with
  | .context => spans
  | .addition => spans.map fun p => (p.1.set_bg H.add_bg, p.2)
  | .deletion => spans.map fun p => (p.1.set_bg H.del_bg, p.2)

/-! ## Backend model (the libgit2 data consumed by `src/git/diff.rs`) -/

/-- The `git2::Delta` status codes. -/
inductive Delta where
  | added
  | deleted
  | modified
  | renamed
  | copied
  | untracked
  | unmodified
  | ignored
  | typechange
  | unreadable
  | conflicted
deriving DecidableEq, Repr

/-- One backend diff line record: origin marker character, raw content
(already decoded from bytes), optional old/new line numbers. -/
structure BackendLine where
  origin : Char
  content : String
  old_lineno : Option Nat
  new_lineno : Option Nat
deriving DecidableEq, Repr

/-- One backend hunk: header bytes (decoded), old/new start and line counts
from the hunk header, and its indexable line sequence. -/
structure BackendHunk where
  header : String
  old_start : Nat
  old_lines : Nat
  new_start : Nat
  new_lines : Nat
  lines : List BackendLine
deriving DecidableEq, Repr

/-- One backend file delta, with the fields `parse_diff` reads. -/
structure BackendDelta where
  status : Delta
  old_path : Option PathBuf
  new_path : Option PathBuf
  old_is_binary : Bool
  new_is_binary : Bool
deriving DecidableEq, Repr

/-- The result of `git2::Patch::from_diff` for one delta: a backend failure,
no patch, or a patch holding the hunk list. -/
abbrev PatchResult := Except GitErr (Option (List BackendHunk))

/-- A backend diff: its ordered deltas, each paired with the patch that
`Patch::from_diff(diff, delta_idx)` would return for it. -/
structure BackendDiff where
  deltas : List (BackendDelta × PatchResult)

/-! ## Diff normalizer (`src/git/diff.rs`) -/

/-- Rust `str::trim_end_matches` for a single-character pattern: drop every
trailing occurrence of `c`. -/
def trim_end_matches (c : Char) (s : String) : String :=
  String.mk ((s.data.reverse.dropWhile fun a => a == c).reverse)

/-- The content normalization in `parse_hunks`:
`.trim_end_matches(newline).trim_end_matches(carriage_return)`. -/
def strip_eol (s : String) : String :=
  trim_end_matches '\r' (trim_end_matches '\n' s)

/-- The origin-marker match in `parse_hunks`: any unrecognized marker becomes
`Context`. -/
def origin_of (c : Char) : LineOrigin :=
  match c with
  | '+' => .addition
  | '-' => .deletion
  | ' ' => .context
  | _ => .context

/-- The status match in `parse_diff`: `Untracked` joins `Added`, any
unrecognized backend status becomes `Modified`. -/
def status_of (d : Delta) : FileStatus :=
  match d with
  | .added => .added
  | .untracked => .added
  | .deleted => .deleted
  | .modified => .modified
  | .renamed => .renamed
  | .copied => .copied
  | _ => .modified

/-- `new_path.as_ref().or(old_path.as_ref())`: the path used to resolve a
grammar for highlighting. -/
def key_path (d : BackendDelta) : Option PathBuf :=
  match d.new_path with
  | some p => some p
  | none => d.old_path

/-- The body of the per-hunk loop of `parse_hunks`: extract contents and
origins, highlight the whole hunk once, then build each `DiffLine`, applying
the diff background to its spans. -/
def parse_one_hunk (H : SyntaxHighlighter Γ σ) (file_path : Option PathBuf)
    (h : BackendHunk) : DiffHunk :=
  let line_contents := h.lines.map fun l => strip_eol l.content
  let highlighted_lines : Option (List (List (Style × String))) :=
    match file_path with
    | some path => highlight_file_lines H path line_contents
    | none => none
  let lines : List DiffLine := h.lines.enum.map fun il =>
    let origin := origin_of il.2.origin
    { origin := origin
      content := strip_eol il.2.content
      old_lineno := il.2.old_lineno
      new_lineno := il.2.new_lineno
      highlighted_spans :=
        match highlighted_lines with
        | some all => (all.get? il.1).map fun spans => apply_diff_background H spans origin
        | none => none }
  { header := h.header.trim
    lines := lines
    old_start := h.old_start
    old_count := h.old_lines
    new_start := h.new_start
    new_count := h.new_lines }

/-- Embedding of `parse_hunks`: a backend failure from `Patch::from_diff`
propagates; a missing patch yields no hunks; otherwise every backend hunk is
normalized in order. -/
def parse_hunks (H : SyntaxHighlighter Γ σ) (patch : PatchResult)
    (file_path : Option PathBuf) : Except TuicrError (List DiffHunk) :=
  match patch with
  | .error e => .error (.backend e)
  | .ok none => .ok []
  | .ok (some hs) => .ok (hs.map (parse_one_hunk H file_path))

/-- The per-delta body of the loop in `parse_diff`: status mapping, binary
flag from either side, empty hunks for binary files (skipping `parse_hunks`
and with it the highlighter), and the `DiffFile` record. -/
def parse_delta (H : SyntaxHighlighter Γ σ) (δ : BackendDelta)
    (patch : PatchResult) : Except TuicrError DiffFile :=
  let is_binary := δ.old_is_binary || δ.new_is_binary
  match (if is_binary then .ok [] else parse_hunks H patch (key_path δ) :
        Except TuicrError (List DiffHunk)) with
  | .error e => .error e
  | .ok hunks =>
    .ok { old_path := δ.old_path
          new_path := δ.new_path
          status := status_of δ.status
          hunks := hunks
          is_binary := is_binary }

/-- The delta loop of `parse_diff`: one `DiffFile` per delta, first failure
aborting the whole build. -/
def parse_files (H : SyntaxHighlighter Γ σ) :
    List (BackendDelta × PatchResult) → Except TuicrError (List DiffFile)
  | [] => .ok []
  | δp :: rest =>
    match parse_delta H δp.1 δp.2 with
    | .error e => .error e
    | .ok f =>
      match parse_files H rest with
      | .error e => .error e
      | .ok fs => .ok (f :: fs)

/-- Embedding of `parse_diff`: normalize every delta, then fail with
`NoChanges` exactly when no file was produced. -/
def parse_diff (H : SyntaxHighlighter Γ σ) (d : BackendDiff) :
    Except TuicrError (List DiffFile) :=
  match parse_files H d.deltas with
  | .error e => .error e
  | .ok files => if files.isEmpty then .error .noChanges else .ok files

/-! ## Repository model and commit-range acquisition (`src/git/diff.rs`) -/

/-- A commit object id, as a hex string. -/
abbrev Oid := String

/-- A commit as read by `get_commit_range_diff`: parent ids and tree id. -/
structure Commit where
  parents : List Oid
  tree_id : Oid
deriving DecidableEq, Repr

/-- A tree handle; only its identity matters to the core. -/
structure Tree where
  tid : Oid
deriving DecidableEq, Repr

/-- The libgit2 repository collaborator: object lookups and the backend
tree-to-tree diff (`None` standing for the empty tree, as in libgit2). -/
structure Repository where
  find_commit : Oid → Except GitErr Commit
  find_tree : Oid → Except GitErr Tree
  diff_tree_to_tree : Option Tree → Option Tree → Except GitErr BackendDiff

/-- The old-tree computation of `get_commit_range_diff`: the first parent
tree when the commit has a parent, else `none` (the empty tree); every `?`
on a backend lookup is an explicit match propagating the wrapped error. -/
def commit_parent_tree (repo : Repository) (c : Commit) :
    Except TuicrError (Option Tree) :=
  match c.parents with
  | [] => .ok none
  | p :: _ =>
    match repo.find_commit p with
    | .error e => .error (.backend e)
    | .ok pc =>
      match repo.find_tree pc.tree_id with
      | .error e => .error (.backend e)
      | .ok t => .ok (some t)

/-- Embedding of `get_commit_range_diff`; `oid_from_str` models
`git2::Oid::from_str`. The id list is ordered oldest to newest: the oldest
is the head of the list, the newest its last element; each `?` is an
explicit match propagating the wrapped backend error. -/
def get_commit_range_diff (repo : Repository)
    (oid_from_str : String → Except GitErr Oid) (H : SyntaxHighlighter Γ σ)
    (commit_ids : List String) : Except TuicrError (List DiffFile) :=
  match commit_ids with
  | [] => .error .noChanges
  | c0 :: rest =>
    match oid_from_str c0 with
    | .error e => .error (.backend e)
    | .ok oldest_id =>
      match repo.find_commit oldest_id with
      | .error e => .error (.backend e)
      | .ok oldest_commit =>
        match oid_from_str (rest.getLastD c0) with
        | .error e => .error (.backend e)
        | .ok newest_id =>
          match repo.find_commit newest_id with
          | .error e => .error (.backend e)
          | .ok newest_commit =>
            match commit_parent_tree repo oldest_commit with
            | .error e => .error e
            | .ok old_tree =>
              match repo.find_tree newest_commit.tree_id with
              | .error e => .error (.backend e)
              | .ok new_tree =>
                match repo.diff_tree_to_tree old_tree (some new_tree) with
                | .error e => .error (.backend e)
                | .ok d => parse_diff H d

/-- Embedding of `get_working_tree_diff`: resolve the HEAD tree, run the
backend working-tree diff (untracked files included, their content shown,
untracked directories recursed — options owned by the backend collaborator,
here a single function), and normalize. -/
def get_working_tree_diff (head_tree : Except GitErr Tree)
    (diff_tree_to_workdir_with_index : Tree → Except GitErr BackendDiff)
    (H : SyntaxHighlighter Γ σ) : Except TuicrError (List DiffFile) :=
  match head_tree with
  | .error e => .error (.backend e)
  | .ok head =>
    match diff_tree_to_workdir_with_index head with
    | .error e => .error (.backend e)
    | .ok d => parse_diff H d

/-! ## Context gap engine (`src/git/context.rs`, spec section 4.2) -/

/-- Modelled from the spec: `ContextGap` lives in `src/git/context.rs`, which
is not among the provided sources (spec section 3): old and new line ranges
plus their common size. -/
structure ContextGap where
  old_start : Int
  old_end : Int
  new_start : Int
  new_end : Int
  size : Int
deriving DecidableEq, Repr

/-- The spec formula for the old-side gap start: previous hunk's old_start
plus old_count, or 1 when no hunk precedes. -/
def gap_old_start (prev : Option DiffHunk) : Int :=
  match prev with
  | some h => (h.old_start : Int) + (h.old_count : Int)
  | none => 1

/-- The spec formula for the old-side gap end: next hunk's old_start minus
1, or the last file line when no hunk follows. -/
def gap_old_end (next : Option DiffHunk) (file_old_len : Int) : Int :=
  match next with
  | some h => (h.old_start : Int) - 1
  | none => file_old_len

/-- The spec formula for the new-side gap start. -/
def gap_new_start (prev : Option DiffHunk) : Int :=
  match prev with
  | some h => (h.new_start : Int) + (h.new_count : Int)
  | none => 1

/-- The spec formula for the new-side gap end. -/
def gap_new_end (next : Option DiffHunk) (file_new_len : Int) : Int :=
  match next with
  | some h => (h.new_start : Int) - 1
  | none => file_new_len

/-- The spec formula for the old-side gap size: end minus start plus 1,
clamped non-negative. -/
def spec_old_gap_size (prev next : Option DiffHunk) (file_old_len : Int) : Int :=
  max 0 (gap_old_end next file_old_len - gap_old_start prev + 1)

/-- The spec formula for the new-side gap size. -/
def spec_new_gap_size (prev next : Option DiffHunk) (file_new_len : Int) : Int :=
  max 0 (gap_new_end next file_new_len - gap_new_start prev + 1)

/-- Modelled from the spec: `calculate_gap` lives in `src/git/context.rs`,
which is not among the provided sources (only re-exported by
`src/git/mod.rs`). Spec section 4.2: gap start is the previous hunk start
plus count (1 when no hunk precedes); gap end is the next hunk start minus 1
(the last file line when none follows); size is end minus start plus 1
clamped non-negative; the new side is symmetric; old and new sizes must
agree, a mismatch being `GapIntegrityError`. -/
def calculate_gap (prev : Option DiffHunk) (next : Option DiffHunk)
    (file_old_len file_new_len : Int) : Except TuicrError ContextGap :=
  if spec_old_gap_size prev next file_old_len
      = spec_new_gap_size prev next file_new_len then
    .ok { old_start := gap_old_start prev
          old_end := gap_old_end next file_old_len
          new_start := gap_new_start prev
          new_end := gap_new_end next file_new_len
          size := spec_old_gap_size prev next file_old_len }
  else
    .error .gapIntegrity

/-- Modelled from the spec: `fetch_context_lines` lives in
`src/git/context.rs`, which is not among the provided sources (only
re-exported by `src/git/mod.rs`). Spec sections 4.2 and 6: materializing a
gap fetches the relevant blob's lines strictly by line-number slice through
the blob/content reader; line numbers are 1-based and inclusive. -/
def fetch_context_lines (blob_lines : PathBuf → List String) (file : PathBuf)
    (start_line end_line : Int) : List String :=
  ((blob_lines file).drop (start_line - 1).toNat).take (end_line - start_line + 1).toNat

end Tuicr

deriving instance DecidableEq for Except

namespace Tuicr

variable {Γ σ : Type}

/-! ## General lemmas about the normalizer -/

/-- A binary delta is normalized without touching its patch or the
highlighter: empty hunk list, binary flag set. -/
theorem parse_delta_of_binary (H : SyntaxHighlighter Γ σ) (δ : BackendDelta)
    (p : PatchResult) (hb : (δ.old_is_binary || δ.new_is_binary) = true) :
    parse_delta H δ p =
      .ok { old_path := δ.old_path, new_path := δ.new_path,
            status := status_of δ.status, hunks := [], is_binary := true } := by
  simp [parse_delta, hb]

/-- Field inversion for a successfully normalized delta. -/
theorem parse_delta_ok_fields (H : SyntaxHighlighter Γ σ) (δ : BackendDelta)
    (p : PatchResult) (f : DiffFile) (h : parse_delta H δ p = .ok f) :
    f.old_path = δ.old_path ∧ f.new_path = δ.new_path ∧
    f.status = status_of δ.status ∧
    f.is_binary = (δ.old_is_binary || δ.new_is_binary) ∧
    (f.is_binary = true → f.hunks = []) ∧
    (f.is_binary = false → parse_hunks H p (key_path δ) = .ok f.hunks) := by
  cases hb : (δ.old_is_binary || δ.new_is_binary) with
  | true =>
    rw [parse_delta_of_binary H δ p hb] at h
    injection h with h2
    subst h2
    refine ⟨rfl, rfl, rfl, rfl, fun _ => rfl, fun hc => ?_⟩
    simp at hc
  | false =>
    simp only [parse_delta, hb] at h
    cases hp : parse_hunks H p (key_path δ) with
    | error e => rw [hp] at h; cases h
    | ok hunks =>
      rw [hp] at h
      injection h with h2
      subst h2
      refine ⟨rfl, rfl, rfl, rfl, fun hc => ?_, fun _ => rfl⟩
      simp at hc

/-- A failing `parse_delta` only ever propagates a backend patch failure. -/
theorem parse_delta_error_backend (H : SyntaxHighlighter Γ σ) (δ : BackendDelta)
    (p : PatchResult) (e : TuicrError) (h : parse_delta H δ p = .error e) :
    ∃ g, e = .backend g ∧ p = .error g := by
  cases hb : (δ.old_is_binary || δ.new_is_binary) with
  | true => rw [parse_delta_of_binary H δ p hb] at h; cases h
  | false =>
    simp only [parse_delta, hb] at h
    cases p with
    | error g =>
      refine ⟨g, ?_, rfl⟩
      simp [parse_hunks] at h
      exact h.symm
    | ok op =>
      cases op with
      | none => simp [parse_hunks] at h
      | some hs => simp [parse_hunks] at h

/-- The delta loop pairs each input delta with its output file in order. -/
theorem parse_files_forall2 (H : SyntaxHighlighter Γ σ) :
    ∀ (l : List (BackendDelta × PatchResult)) (fs : List DiffFile),
      parse_files H l = .ok fs →
      List.Forall₂ (fun δp f => parse_delta H δp.1 δp.2 = .ok f) l fs := by
  intro l
  induction l with
  | nil =>
    intro fs h
    cases h
    exact .nil
  | cons δp rest ih =>
    intro fs h
    simp only [parse_files] at h
    cases hd : parse_delta H δp.1 δp.2 with
    | error e => rw [hd] at h; cases h
    | ok f =>
      rw [hd] at h
      cases hr : parse_files H rest with
      | error e => rw [hr] at h; cases h
      | ok fs2 =>
        rw [hr] at h
        cases h
        exact .cons hd (ih fs2 hr)

/-- A failing delta loop only ever propagates a backend patch failure of one
of its deltas. -/
theorem parse_files_error_backend (H : SyntaxHighlighter Γ σ) :
    ∀ (l : List (BackendDelta × PatchResult)) (e : TuicrError),
      parse_files H l = .error e →
      ∃ g, e = .backend g ∧ ∃ δp ∈ l, δp.2 = .error g := by
  intro l
  induction l with
  | nil => intro e h; cases h
  | cons δp rest ih =>
    intro e h
    simp only [parse_files] at h
    cases hd : parse_delta H δp.1 δp.2 with
    | error e2 =>
      rw [hd] at h
      cases h
      obtain ⟨g, hg, hp⟩ := parse_delta_error_backend H δp.1 δp.2 e hd
      exact ⟨g, hg, δp, List.mem_cons_self δp rest, hp⟩
    | ok f =>
      rw [hd] at h
      cases hr : parse_files H rest with
      | error e2 =>
        rw [hr] at h
        cases h
        obtain ⟨g, hg, δp2, hm, hp⟩ := ih e hr
        exact ⟨g, hg, δp2, List.mem_cons_of_mem δp hm, hp⟩
      | ok fs2 => rw [hr] at h; cases h

/-- A successful `parse_diff` pairs each delta with its output file. -/
theorem parse_diff_ok_forall2 (H : SyntaxHighlighter Γ σ) (d : BackendDiff)
    (fs : List DiffFile) (h : parse_diff H d = .ok fs) :
    List.Forall₂ (fun δp f => parse_delta H δp.1 δp.2 = .ok f) d.deltas fs := by
  simp only [parse_diff] at h
  cases hf : parse_files H d.deltas with
  | error e => rw [hf] at h; simp at h
  | ok files =>
    rw [hf] at h
    cases files with
    | nil => simp at h
    | cons f0 fs2 =>
      simp at h
      subst h
      exact parse_files_forall2 H d.deltas (f0 :: fs2) hf

/-- In a `Forall₂` relation, every element on the right has a related witness
on the left. -/
theorem forall2_exists_left {α β : Type} {R : α → β → Prop} :
    ∀ {l1 : List α} {l2 : List β}, List.Forall₂ R l1 l2 →
      ∀ b ∈ l2, ∃ a ∈ l1, R a b := by
  intro l1 l2 h
  induction h with
  | nil => intro b hb; cases hb
  | cons hr _ ih =>
    intro b hb
    rcases List.mem_cons.mp hb with rfl | hb2
    · exact ⟨_, List.mem_cons_self _ _, hr⟩
    · obtain ⟨a, ha, hab⟩ := ih b hb2
      exact ⟨a, List.mem_cons_of_mem _ ha, hab⟩

/-- Every output file of a successful `parse_diff` comes from one of the
deltas. -/
theorem parse_diff_ok_mem (H : SyntaxHighlighter Γ σ) (d : BackendDiff)
    (fs : List DiffFile) (h : parse_diff H d = .ok fs) :
    ∀ f ∈ fs, ∃ δp ∈ d.deltas, parse_delta H δp.1 δp.2 = .ok f :=
  forall2_exists_left (parse_diff_ok_forall2 H d fs h)

/-! ## Line-count bookkeeping for hunks (claim C3 support) -/

/-- The number of `DiffLine`s a hunk contributes to the old file: origin
`Deletion` or `Context`. -/
def old_side_count (ls : List DiffLine) : Nat :=
  ls.countP fun l =>
    decide (l.origin = LineOrigin.deletion ∨ l.origin = LineOrigin.context)

/-- The number of `DiffLine`s a hunk contributes to the new file: origin
`Addition` or `Context`. -/
def new_side_count (ls : List DiffLine) : Nat :=
  ls.countP fun l =>
    decide (l.origin = LineOrigin.addition ∨ l.origin = LineOrigin.context)

/-- The libgit2 contract for a well-formed text hunk: every line record
carries one of the three plain origin markers, and the header counts agree
with the line records. -/
def hunk_metadata_consistent (h : BackendHunk) : Prop :=
  (∀ l ∈ h.lines, l.origin = '+' ∨ l.origin = '-' ∨ l.origin = ' ')
  ∧ h.old_lines = h.lines.countP (fun l => decide (l.origin = '-' ∨ l.origin = ' '))
  ∧ h.new_lines = h.lines.countP (fun l => decide (l.origin = '+' ∨ l.origin = ' '))

/-- Counting a predicate on the payload of an enumerated list ignores the
indices. -/
theorem countP_enumFrom {α : Type} (r : α → Bool) :
    ∀ (n : Nat) (xs : List α),
      ((List.enumFrom n xs).countP fun p => r p.2) = xs.countP r := by
  intro n xs
  induction xs generalizing n with
  | nil => rfl
  | cons x xs ih => simp [List.enumFrom_cons, List.countP_cons, ih]

/-- The old-side count of a normalized hunk, pushed down to the backend
lines. -/
theorem parse_one_hunk_old_count_eq (H : SyntaxHighlighter Γ σ)
    (fp : Option PathBuf) (h : BackendHunk) :
    old_side_count (parse_one_hunk H fp h).lines
      = h.lines.countP fun l =>
          decide (origin_of l.origin = LineOrigin.deletion
            ∨ origin_of l.origin = LineOrigin.context) := by
  simp only [old_side_count, parse_one_hunk, List.countP_map, List.enum]
  exact countP_enumFrom
    (fun l => decide (origin_of l.origin = LineOrigin.deletion
      ∨ origin_of l.origin = LineOrigin.context)) 0 h.lines

/-- The new-side count of a normalized hunk, pushed down to the backend
lines. -/
theorem parse_one_hunk_new_count_eq (H : SyntaxHighlighter Γ σ)
    (fp : Option PathBuf) (h : BackendHunk) :
    new_side_count (parse_one_hunk H fp h).lines
      = h.lines.countP fun l =>
          decide (origin_of l.origin = LineOrigin.addition
            ∨ origin_of l.origin = LineOrigin.context) := by
  simp only [new_side_count, parse_one_hunk, List.countP_map, List.enum]
  exact countP_enumFrom
    (fun l => decide (origin_of l.origin = LineOrigin.addition
      ∨ origin_of l.origin = LineOrigin.context)) 0 h.lines

/-- Under the backend contract, a normalized hunk's header counts equal its
per-side line counts. -/
theorem parse_one_hunk_counts (H : SyntaxHighlighter Γ σ) (fp : Option PathBuf)
    (h : BackendHunk) (hw : hunk_metadata_consistent h) :
    (parse_one_hunk H fp h).old_count = old_side_count (parse_one_hunk H fp h).lines
    ∧ (parse_one_hunk H fp h).new_count = new_side_count (parse_one_hunk H fp h).lines := by
  obtain ⟨ho, h1, h2⟩ := hw
  constructor
  · show h.old_lines = old_side_count (parse_one_hunk H fp h).lines
    rw [parse_one_hunk_old_count_eq, h1]
    refine List.countP_congr ?_
    intro l hl
    rcases ho l hl with hc | hc | hc <;> rw [hc] <;> decide
  · show h.new_lines = new_side_count (parse_one_hunk H fp h).lines
    rw [parse_one_hunk_new_count_eq, h2]
    refine List.countP_congr ?_
    intro l hl
    rcases ho l hl with hc | hc | hc <;> rw [hc] <;> decide

/-! ## Lemmas about the highlight compositor -/

/-- `convert_span` keeps the text of a range. -/
theorem convert_span_snd (p : SynStyle × String) : (convert_span p).2 = p.2 := rfl

/-- The per-line tokenizer loop: under the syntect segmentation contract
(every successful tokenization of a line concatenates back to that line), it
produces one span sequence per input line, each concatenating back exactly. -/
theorem highlight_lines_go_forall2 (H : SyntaxHighlighter Γ σ) (g : Γ)
    (hc : ∀ st line st2 ranges, H.highlight_line g st line = some (st2, ranges) →
      String.join (ranges.map Prod.snd) = line) :
    ∀ (lines : List String) (st : σ) (res : List (List (Style × String))),
      highlight_lines_go H g st lines = some res →
      List.Forall₂ (fun line spans => String.join (spans.map Prod.snd) = line) lines res := by
  intro lines
  induction lines with
  | nil =>
    intro st res h
    cases h
    exact .nil
  | cons line rest ih =>
    intro st res h
    simp only [highlight_lines_go] at h
    split at h
    · cases h
    · rename_i st2 ranges heq
      split at h
      · cases h
      · rename_i tail heq2
        injection h with h2
        subst h2
        refine .cons ?_ (ih st2 tail heq2)
        have hmap : (ranges.map convert_span).map Prod.snd = ranges.map Prod.snd := by
          rw [List.map_map]
          rfl
        rw [hmap]
        exact hc st line st2 ranges heq

/-! ## Concrete instances used by witnesses and counterexamples -/

/-- A highlighter that resolves no grammar at all (so highlighting always
degrades to plain text). -/
def hl0 : SyntaxHighlighter Unit Unit :=
  { find_syntax_by_extension := fun _ => none
    find_syntax_by_name := fun _ => none
    init_grammar := fun _ => ()
    highlight_line := fun _ _ _ => none
    add_bg := ⟨0, 35, 12⟩
    del_bg := ⟨45, 0, 0⟩ }

/-- A highlighter whose tokenizer returns each whole line as a single white
span; it satisfies the syntect segmentation contract. -/
def hl_plain : SyntaxHighlighter Unit Unit :=
  { find_syntax_by_extension := fun _ => some ()
    find_syntax_by_name := fun _ => none
    init_grammar := fun _ => ()
    highlight_line := fun _ _ line =>
      some ((), [({ foreground := ⟨255, 255, 255⟩,
                    font_style := ⟨false, false, false⟩ }, line)])
    add_bg := ⟨0, 35, 12⟩
    del_bg := ⟨45, 0, 0⟩ }

/-- A plain text file path with no extension. -/
def pFoo : PathBuf := { extension := none, file_name := some "foo" }

/-- A Rust-looking file path. -/
def pMain : PathBuf := { extension := some "rs", file_name := some "main.rs" }

/-! ## Claim C5 -/

/-- C5: for every span sequence and every line origin,
`apply_diff_background` preserves the number, order and text of the spans;
for `Addition` and `Deletion` it changes only each span's background color
(to the addition and deletion background respectively), keeping foreground
and modifiers; and for `Context` it returns the input unchanged. -/
theorem c5_apply_diff_background (H : SyntaxHighlighter Γ σ)
    (spans : List (Style × String)) (origin : LineOrigin) :
    (apply_diff_background H spans origin).map Prod.snd = spans.map Prod.snd
    ∧ (apply_diff_background H spans origin).length = spans.length
    ∧ (origin = .context → apply_diff_background H spans origin = spans)
    ∧ (origin = .addition →
        apply_diff_background H spans origin
          = spans.map fun p => ({ p.1 with bg := some H.add_bg }, p.2))
    ∧ (origin = .deletion →
        apply_diff_background H spans origin
          = spans.map fun p => ({ p.1 with bg := some H.del_bg }, p.2)) := by
  cases origin with
  | context =>
    refine ⟨rfl, rfl, fun _ => rfl, ?_, ?_⟩
    · intro hc; cases hc
    · intro hc; cases hc
  | addition =>
    refine ⟨?_, ?_, ?_, fun _ => rfl, ?_⟩
    · show (spans.map fun p => (p.1.set_bg H.add_bg, p.2)).map Prod.snd = spans.map Prod.snd
      rw [List.map_map]
      rfl
    · show (spans.map fun p => (p.1.set_bg H.add_bg, p.2)).length = spans.length
      rw [List.length_map]
    · intro hc; cases hc
    · intro hc; cases hc
  | deletion =>
    refine ⟨?_, ?_, ?_, ?_, fun _ => rfl⟩
    · show (spans.map fun p => (p.1.set_bg H.del_bg, p.2)).map Prod.snd = spans.map Prod.snd
      rw [List.map_map]
      rfl
    · show (spans.map fun p => (p.1.set_bg H.del_bg, p.2)).length = spans.length
      rw [List.length_map]
    · intro hc; cases hc
    · intro hc; cases hc

/-- A concrete span list for the C5 witness. -/
def spans0 : List (Style × String) :=
  [(Style.set_fg Style.default ⟨10, 20, 30⟩, "let "),
   ((Style.set_fg Style.default ⟨200, 0, 0⟩).add_modifier .bold, "x")]

/-- Witness for C5 at a concrete span list and the `Deletion` origin. -/
theorem c5_witness :
    (apply_diff_background hl0 spans0 LineOrigin.deletion).map Prod.snd
        = spans0.map Prod.snd
    ∧ apply_diff_background hl0 spans0 LineOrigin.deletion
        = spans0.map fun p => ({ p.1 with bg := some hl0.del_bg }, p.2) := by
  have h := c5_apply_diff_background hl0 spans0 LineOrigin.deletion
  exact ⟨h.1, h.2.2.2.2 rfl⟩

/-! ## Claim C10 -/

/-- C10: `get_commit_range_diff` on the empty commit-id list returns the
`NoChanges` error uniformly in the repository, id parser and highlighter —
so no repository lookup can influence the result, and no diff is ever
produced. -/
theorem c10_empty_commit_range (H : SyntaxHighlighter Γ σ) (repo : Repository)
    (oid_from_str : String → Except GitErr Oid) :
    get_commit_range_diff repo oid_from_str H [] = .error .noChanges := rfl

/-! ## Claim C2 -/

/-- C2: normalization fails with `NoChanges` exactly when the backend diff
has zero deltas, and every other failure is an unchanged backend error taken
from one of the deltas. -/
theorem c2_no_changes_iff (H : SyntaxHighlighter Γ σ) (d : BackendDiff) :
    (parse_diff H d = .error .noChanges ↔ d.deltas = [])
    ∧ ∀ e, parse_diff H d = .error e →
        e = .noChanges ∨ ∃ g, e = .backend g ∧ ∃ δp ∈ d.deltas, δp.2 = .error g := by
  constructor
  · constructor
    · intro h
      simp only [parse_diff] at h
      cases hf : parse_files H d.deltas with
      | error e =>
        rw [hf] at h
        simp at h
        obtain ⟨g, hg, _⟩ := parse_files_error_backend H d.deltas e hf
        rw [h] at hg
        cases hg
      | ok files =>
        rw [hf] at h
        cases files with
        | nil =>
          exact List.forall₂_nil_right_iff.mp (parse_files_forall2 H d.deltas [] hf)
        | cons f fs2 => simp at h
    · intro h
      have hf : parse_files H d.deltas = .ok [] := by rw [h]; rfl
      simp [parse_diff, hf]
  · intro e h
    simp only [parse_diff] at h
    cases hf : parse_files H d.deltas with
    | error e2 =>
      rw [hf] at h
      simp at h
      obtain ⟨g, hg, w⟩ := parse_files_error_backend H d.deltas e2 hf
      rw [← h]
      exact .inr ⟨g, hg, w⟩
    | ok files =>
      rw [hf] at h
      cases files with
      | nil =>
        left
        simp at h
        exact h.symm
      | cons f fs2 => simp at h

/-- A one-delta diff whose patch lookup fails with a backend error. -/
def d_backend_fail : BackendDiff :=
  ⟨[({ status := .modified, old_path := some pFoo, new_path := some pFoo,
       old_is_binary := false, new_is_binary := false },
     Except.error ⟨"object store corrupt"⟩)]⟩

/-- Witness for C2: a concrete failing backend, showing the propagated error
is the original backend error, plus the `NoChanges` iff at that input. -/
theorem c2_witness :
    (parse_diff hl0 d_backend_fail = .error .noChanges ↔ d_backend_fail.deltas = [])
    ∧ (TuicrError.backend ⟨"object store corrupt"⟩ = .noChanges
        ∨ ∃ g, TuicrError.backend ⟨"object store corrupt"⟩ = .backend g
            ∧ ∃ δp ∈ d_backend_fail.deltas, δp.2 = .error g) := by
  have h := c2_no_changes_iff hl0 d_backend_fail
  exact ⟨h.1, h.2 (.backend ⟨"object store corrupt"⟩) rfl⟩

/-! ## Claim C4 -/

/-- C4: under the syntect segmentation contract (a successful tokenization of
a line concatenates back to that line), whenever `highlight_file_lines`
returns a result it has exactly one span sequence per input line, and for
each line the concatenation of its span texts is that line exactly. -/
theorem c4_highlight_partition (H : SyntaxHighlighter Γ σ) (file_path : PathBuf)
    (lines : List String)
    (hcontract : ∀ g st line st2 ranges,
      H.highlight_line g st line = some (st2, ranges) →
      String.join (ranges.map Prod.snd) = line) :
    ∀ res, highlight_file_lines H file_path lines = some res →
      res.length = lines.length
      ∧ List.Forall₂ (fun line spans => String.join (spans.map Prod.snd) = line)
          lines res := by
  intro res h
  simp only [highlight_file_lines] at h
  cases hg : grammar_for H file_path with
  | none => rw [hg] at h; cases h
  | some g =>
    rw [hg] at h
    have h2 := highlight_lines_go_forall2 H g (hcontract g) lines (H.init_grammar g) res h
    exact ⟨h2.length_eq.symm, h2⟩

/-- Witness for C4: the whole-line tokenizer satisfies the contract, and on
the concrete lines `["ab", ""]` produces one exactly-concatenating sequence
per line. -/
theorem c4_witness :
    ∃ res, highlight_file_lines hl_plain pMain ["ab", ""] = some res
      ∧ res.length = 2
      ∧ List.Forall₂ (fun line spans => String.join (spans.map Prod.snd) = line)
          ["ab", ""] res := by
  have hc : ∀ g st line st2 ranges,
      hl_plain.highlight_line g st line = some (st2, ranges) →
      String.join (ranges.map Prod.snd) = line := by
    intro g st line st2 ranges h
    injection h with h2
    have h3 : [(({ foreground := ⟨255, 255, 255⟩,
                   font_style := ⟨false, false, false⟩ } : SynStyle), line)] = ranges :=
      congrArg Prod.snd h2
    rw [← h3]
    rfl
  obtain ⟨hlen, hfa⟩ := c4_highlight_partition hl_plain pMain ["ab", ""] hc _ rfl
  exact ⟨_, rfl, hlen, hfa⟩

/-! ## Claim C7 -/

/-- C7: a grammar-resolution failure (and likewise a tokenizer failure on a
line) makes `highlight_file_lines` return no result; a delta whose file path
always fails to highlight is still normalized successfully, every one of its
lines carrying no highlighted spans; and each output file of `parse_diff`
is determined by its own delta alone, leaving all other files unaffected. -/
theorem c7_highlight_failure_degrades (H : SyntaxHighlighter Γ σ) :
    (∀ p lines, grammar_for H p = none → highlight_file_lines H p lines = none)
    ∧ (∀ g st line rest, H.highlight_line g st line = none →
        highlight_lines_go H g st (line :: rest) = none)
    ∧ (∀ (δ : BackendDelta) (hs : List BackendHunk) path,
        key_path δ = some path →
        (∀ lines, highlight_file_lines H path lines = none) →
        ∃ f, parse_delta H δ (.ok (some hs)) = .ok f
          ∧ ∀ hk ∈ f.hunks, ∀ ln ∈ hk.lines, ln.highlighted_spans = none)
    ∧ (∀ d fs, parse_diff H d = .ok fs →
        List.Forall₂ (fun δp f => parse_delta H δp.1 δp.2 = .ok f) d.deltas fs) := by
  refine ⟨?_, ?_, ?_, parse_diff_ok_forall2 H⟩
  · intro p lines hg
    simp [highlight_file_lines, hg]
  · intro g st line rest hl
    simp [highlight_lines_go, hl]
  · intro δ hs path hkey hfail
    cases hb : (δ.old_is_binary || δ.new_is_binary) with
    | true =>
      refine ⟨_, parse_delta_of_binary H δ _ hb, ?_⟩
      intro hk hmem
      exact absurd hmem (List.not_mem_nil hk)
    | false =>
      have hd : parse_delta H δ (.ok (some hs)) =
          .ok { old_path := δ.old_path, new_path := δ.new_path,
                status := status_of δ.status,
                hunks := hs.map (parse_one_hunk H (key_path δ)),
                is_binary := false } := by
        simp [parse_delta, hb, parse_hunks]
      refine ⟨_, hd, ?_⟩
      intro hk hmem ln hln
      simp only [List.mem_map] at hmem
      obtain ⟨bh, _, rfl⟩ := hmem
      rw [hkey] at hln
      simp only [parse_one_hunk, hfail, List.mem_map] at hln
      obtain ⟨il, _, rfl⟩ := hln
      rfl

/-- A non-binary delta over the plain-text path, for the C7 witness. -/
def c7_delta : BackendDelta :=
  { status := .modified, old_path := some pFoo, new_path := some pFoo,
    old_is_binary := false, new_is_binary := false }

/-- A one-line hunk for the C7 witness. -/
def c7_hunk : BackendHunk :=
  { header := "@@ -1 +1 @@\n", old_start := 1, old_lines := 1,
    new_start := 1, new_lines := 1,
    lines := [⟨' ', "x\n", some 1, some 1⟩] }

/-- The C7 witness diff: a single delta over the unhighlightable path. -/
def c7_diff : BackendDiff := ⟨[(c7_delta, .ok (some [c7_hunk]))]⟩

/-- The hunk `c7_diff` normalizes to. -/
def c7_out_hunk : DiffHunk := parse_one_hunk hl0 (some pFoo) c7_hunk

/-- The file `c7_diff` normalizes to. -/
def c7_file : DiffFile :=
  { old_path := some pFoo, new_path := some pFoo, status := .modified,
    hunks := [c7_out_hunk], is_binary := false }

/-- The single line `c7_diff` normalizes to. -/
def c7_line : DiffLine :=
  { origin := .context, content := "x", old_lineno := some 1,
    new_lineno := some 1, highlighted_spans := none }

/-- Witness for C7: with the grammarless highlighter, resolution fails,
tokenization failure propagates, the delta still normalizes with a span-less
line, and the file decomposition holds at the concrete diff. -/
theorem c7_witness :
    highlight_file_lines hl0 pFoo ["x"] = none
    ∧ highlight_lines_go hl0 () () ["x"] = none
    ∧ parse_delta hl0 c7_delta (.ok (some [c7_hunk])) = .ok c7_file
    ∧ c7_line.highlighted_spans = none
    ∧ List.Forall₂ (fun δp f => parse_delta hl0 δp.1 δp.2 = .ok f)
        c7_diff.deltas [c7_file] := by
  obtain ⟨h1, h2, h3, h4⟩ := c7_highlight_failure_degrades hl0
  obtain ⟨f, hf, hsp⟩ := h3 c7_delta [c7_hunk] pFoo rfl (fun lines => h1 pFoo lines rfl)
  have hfe : Except.ok f = Except.ok c7_file := hf.symm.trans rfl
  injection hfe with hfe2
  subst hfe2
  refine ⟨h1 pFoo ["x"] rfl, h2 () () "x" [] rfl, hf, ?_, h4 c7_diff [c7_file] rfl⟩
  exact hsp c7_out_hunk (List.mem_singleton.mpr rfl) c7_line (by decide)

/-! ## Claim C3 -/

/-- A realistic backend hunk carrying a libgit2 end-of-file-newline marker
line (origin `>`), whose header counts cover only the plain lines. -/
def cex3_hunk : BackendHunk :=
  { header := "@@ -0,0 +1 @@\n", old_start := 0, old_lines := 0,
    new_start := 1, new_lines := 1,
    lines := [⟨'+', "a\n", none, some 1⟩,
              ⟨'>', "\\ No newline at end of file\n", none, none⟩] }

/-- A non-binary delta holding `cex3_hunk`. -/
def cex3_diff : BackendDiff :=
  ⟨[({ status := .modified, old_path := some pFoo, new_path := some pFoo,
       old_is_binary := false, new_is_binary := false },
     .ok (some [cex3_hunk]))]⟩

/-- Counterexample to C3 as stated: normalizing a backend hunk that carries
an end-of-file-newline marker line (mapped to `Context` by the catch-all
origin match) yields a `DiffHunk` whose `old_count` (0, copied from the
header) differs from its number of Deletion/Context lines (1). -/
theorem c3_counterexample :
    ∃ fs f hk, parse_diff hl0 cex3_diff = .ok fs ∧ f ∈ fs ∧ hk ∈ f.hunks
      ∧ hk.old_count ≠ old_side_count hk.lines := by
  refine ⟨_, _, _, rfl, List.mem_singleton.mpr rfl, List.mem_singleton.mpr rfl, ?_⟩
  decide

/-- C3 (amended): for every `DiffHunk` produced by normalization from a
backend hunk satisfying the libgit2 text-hunk contract (origin markers only
`+`, `-`, space, header counts matching the line records), `old_count`
equals the number of its lines with origin Deletion or Context and
`new_count` the number with origin Addition or Context. -/
theorem c3_hunk_counts (H : SyntaxHighlighter Γ σ) (d : BackendDiff)
    (hwf : ∀ δp ∈ d.deltas, ∀ hs, δp.2 = .ok (some hs) →
      ∀ bh ∈ hs, hunk_metadata_consistent bh) :
    ∀ fs, parse_diff H d = .ok fs → ∀ f ∈ fs, ∀ hk ∈ f.hunks,
      hk.old_count = old_side_count hk.lines
      ∧ hk.new_count = new_side_count hk.lines := by
  intro fs hok f hf hk hhk
  obtain ⟨δp, hmem, hdelta⟩ := parse_diff_ok_mem H d fs hok f hf
  obtain ⟨_, _, _, hbin, hbt, hbf⟩ := parse_delta_ok_fields H δp.1 δp.2 f hdelta
  cases hb : (δp.1.old_is_binary || δp.1.new_is_binary) with
  | true =>
    have hempty := hbt (hbin.trans hb)
    rw [hempty] at hhk
    exact absurd hhk (List.not_mem_nil hk)
  | false =>
    have hph := hbf (hbin.trans hb)
    cases hp : δp.2 with
    | error g => rw [hp] at hph; simp [parse_hunks] at hph
    | ok op =>
      cases op with
      | none =>
        rw [hp] at hph
        simp only [parse_hunks] at hph
        injection hph with hph2
        rw [← hph2] at hhk
        exact absurd hhk (List.not_mem_nil hk)
      | some hs =>
        rw [hp] at hph
        simp only [parse_hunks] at hph
        injection hph with hph2
        rw [← hph2] at hhk
        simp only [List.mem_map] at hhk
        obtain ⟨bh, hbh, rfl⟩ := hhk
        exact parse_one_hunk_counts H (key_path δp.1) bh (hwf δp hmem hs hp bh hbh)

/-- A consistent one-hunk diff for the C3 witness: one deletion, one context
and one addition line, header counts 2 and 2. -/
def c3w_hunk : BackendHunk :=
  { header := "@@ -1,2 +1,2 @@\n", old_start := 1, old_lines := 2,
    new_start := 1, new_lines := 2,
    lines := [⟨'-', "old\n", some 1, none⟩,
              ⟨' ', "keep\n", some 2, some 1⟩,
              ⟨'+', "new\n", none, some 2⟩] }

/-- The C3 witness diff around `c3w_hunk`. -/
def c3w_diff : BackendDiff :=
  ⟨[({ status := .modified, old_path := some pFoo, new_path := some pFoo,
       old_is_binary := false, new_is_binary := false },
     .ok (some [c3w_hunk]))]⟩

/-- The hunk `c3w_diff` normalizes to. -/
def c3w_out_hunk : DiffHunk := parse_one_hunk hl0 (some pFoo) c3w_hunk

/-- The file `c3w_diff` normalizes to. -/
def c3w_file : DiffFile :=
  { old_path := some pFoo, new_path := some pFoo, status := .modified,
    hunks := [c3w_out_hunk], is_binary := false }

/-- Witness for the amended C3 at a concrete well-formed diff. -/
theorem c3_witness :
    c3w_out_hunk.old_count = old_side_count c3w_out_hunk.lines
    ∧ c3w_out_hunk.new_count = new_side_count c3w_out_hunk.lines := by
  have hwf : ∀ δp ∈ c3w_diff.deltas, ∀ hs, δp.2 = .ok (some hs) →
      ∀ bh ∈ hs, hunk_metadata_consistent bh := by
    intro δp hmem hs hp bh hbh
    simp only [c3w_diff, List.mem_singleton] at hmem
    subst hmem
    injection hp with hp2
    injection hp2 with hp3
    rw [← hp3] at hbh
    simp only [List.mem_singleton] at hbh
    subst hbh
    refine ⟨?_, by decide, by decide⟩
    intro l hl
    simp only [c3w_hunk, List.mem_cons, List.not_mem_nil, or_false] at hl
    rcases hl with rfl | rfl | rfl
    · right; left; rfl
    · right; right; rfl
    · left; rfl
  exact c3_hunk_counts hl0 c3w_diff hwf [c3w_file] rfl c3w_file
    (List.mem_singleton.mpr rfl) c3w_out_hunk (List.mem_singleton.mpr rfl)

/-! ## Claim C6 -/

/-- A non-binary delta whose backend patch has no hunks (for example a pure
mode change), for the C6 counterexample. -/
def cex6_diff : BackendDiff :=
  ⟨[({ status := .modified, old_path := some pFoo, new_path := some pFoo,
       old_is_binary := false, new_is_binary := false },
     .ok (some []))]⟩

/-- Counterexample to C6 as stated: a non-binary file whose backend patch
has no hunks is normalized to an empty hunk list with the binary flag clear,
so empty hunks do not imply binary. -/
theorem c6_counterexample :
    ∃ fs f, parse_diff hl0 cex6_diff = .ok fs ∧ f ∈ fs
      ∧ f.hunks = [] ∧ f.is_binary = false := by
  exact ⟨_, _, rfl, List.mem_singleton.mpr rfl, rfl, rfl⟩

/-- C6 (amended): for every file produced by `parse_diff`, the binary flag
is the disjunction of the two backend per-side flags, and a binary file has
an empty hunk list produced without consulting the patch or the highlighter
(its record is reproduced identically by every highlighter); a non-binary
file may also have an empty hunk list when its backend patch has no hunks. -/
theorem c6_binary_no_hunks (H : SyntaxHighlighter Γ σ) (d : BackendDiff)
    (fs : List DiffFile) (hok : parse_diff H d = .ok fs) :
    List.Forall₂ (fun δp f =>
      f.is_binary = (δp.1.old_is_binary || δp.1.new_is_binary)
      ∧ (f.is_binary = true → f.hunks = []
          ∧ ∀ (Γ2 σ2 : Type) (H2 : SyntaxHighlighter Γ2 σ2),
              parse_delta H2 δp.1 δp.2 = .ok f))
      d.deltas fs := by
  refine (parse_diff_ok_forall2 H d fs hok).imp ?_
  intro δp f hd
  obtain ⟨_, _, _, hbin, _, _⟩ := parse_delta_ok_fields H δp.1 δp.2 f hd
  refine ⟨hbin, fun hb => ?_⟩
  have hb2 : (δp.1.old_is_binary || δp.1.new_is_binary) = true := hbin.symm.trans hb
  have he := (parse_delta_of_binary H δp.1 δp.2 hb2).symm.trans hd
  injection he with he2
  constructor
  · rw [← he2]
  · intro Γ2 σ2 H2
    rw [← he2]
    exact parse_delta_of_binary H2 δp.1 δp.2 hb2

/-- A binary delta whose patch lookup even fails, for the C6 witness. -/
def c6w_diff : BackendDiff :=
  ⟨[({ status := .added, old_path := none, new_path := some pFoo,
       old_is_binary := false, new_is_binary := true },
     .error ⟨"binary patch never fetched"⟩)]⟩

/-- The file list `parse_diff` produces for `c6w_diff`. -/
def c6w_files : List DiffFile :=
  [{ old_path := none, new_path := some pFoo, status := .added,
     hunks := [], is_binary := true }]

/-- Witness for the amended C6 at a concrete binary delta. -/
theorem c6_witness :
    List.Forall₂ (fun δp f =>
      f.is_binary = (δp.1.old_is_binary || δp.1.new_is_binary)
      ∧ (f.is_binary = true → f.hunks = []
          ∧ ∀ (Γ2 σ2 : Type) (H2 : SyntaxHighlighter Γ2 σ2),
              parse_delta H2 δp.1 δp.2 = .ok f))
      c6w_diff.deltas c6w_files :=
  c6_binary_no_hunks hl0 c6w_diff c6w_files rfl

/-! ## Claim C1 -/

/-- C1: on a non-empty oldest-to-newest commit-id list whose object lookups
succeed, `get_commit_range_diff` normalizes exactly the backend diff of the
oldest commit's parent tree against the newest commit's tree; the parent
tree is the empty tree (`none`) when the oldest commit is parentless; and
under the backend contract that an empty-against-tree diff reports every
delta `Added`, every produced file has status `Added`. -/
theorem c1_commit_range_diff (H : SyntaxHighlighter Γ σ) (repo : Repository)
    (oid_from_str : String → Except GitErr Oid) (c0 : String)
    (rest : List String) (oid0 oidN : Oid) (c_old c_new : Commit)
    (old_tree : Option Tree) (new_tree : Tree) (d : BackendDiff)
    (h0 : oid_from_str c0 = .ok oid0)
    (h1 : repo.find_commit oid0 = .ok c_old)
    (h2 : oid_from_str (rest.getLastD c0) = .ok oidN)
    (h3 : repo.find_commit oidN = .ok c_new)
    (h4 : commit_parent_tree repo c_old = .ok old_tree)
    (h5 : repo.find_tree c_new.tree_id = .ok new_tree)
    (h6 : repo.diff_tree_to_tree old_tree (some new_tree) = .ok d) :
    get_commit_range_diff repo oid_from_str H (c0 :: rest) = parse_diff H d
    ∧ (c_old.parents = [] → old_tree = none)
    ∧ ((∀ δp ∈ d.deltas, δp.1.status = Delta.added) →
        ∀ fs, parse_diff H d = .ok fs → ∀ f ∈ fs, f.status = FileStatus.added) := by
  refine ⟨?_, ?_, ?_⟩
  · simp only [get_commit_range_diff, h0, h1, h2, h3, h4, h5, h6]
  · intro hpar
    simp only [commit_parent_tree, hpar] at h4
    injection h4 with h42
    exact h42.symm
  · intro hadded fs hfs f hf
    obtain ⟨δp, hmem, hdelta⟩ := parse_diff_ok_mem H d fs hfs f hf
    obtain ⟨_, _, hstat, _, _, _⟩ := parse_delta_ok_fields H δp.1 δp.2 f hdelta
    rw [hstat, hadded δp hmem]
    rfl

/-- The delta an empty-against-tree backend diff reports for the single file
of the C1 witness repository. -/
def c1w_delta : BackendDelta :=
  { status := .added, old_path := none, new_path := some pFoo,
    old_is_binary := false, new_is_binary := false }

/-- The backend diff of the C1 witness repository. -/
def c1w_diff : BackendDiff := ⟨[(c1w_delta, .ok none)]⟩

/-- The file `c1w_diff` normalizes to. -/
def c1w_file : DiffFile :=
  { old_path := none, new_path := some pFoo, status := .added,
    hunks := [], is_binary := false }

/-- A one-commit repository whose single commit `c0` is parentless and whose
backend reports `c1w_diff` exactly for the empty tree versus its tree. -/
def repo1 : Repository :=
  { find_commit := fun i =>
      if i = "c0" then .ok { parents := [], tree_id := "t0" }
      else .error ⟨"no such commit"⟩
    find_tree := fun i =>
      if i = "t0" then .ok ⟨"t0"⟩ else .error ⟨"no such tree"⟩
    diff_tree_to_tree := fun old _ =>
      match old with
      | none => .ok c1w_diff
      | some _ => .error ⟨"not the empty tree"⟩ }

/-- Witness for C1: the single parentless commit of `repo1` is diffed as
empty tree against its tree, and the produced file is `Added`. -/
theorem c1_witness :
    get_commit_range_diff repo1 (fun s => .ok s) hl0 ["c0"] = parse_diff hl0 c1w_diff
    ∧ c1w_file.status = FileStatus.added := by
  have h := c1_commit_range_diff hl0 repo1 (fun s => .ok s) "c0" [] "c0" "c0"
    { parents := [], tree_id := "t0" } { parents := [], tree_id := "t0" }
    none ⟨"t0"⟩ c1w_diff rfl rfl rfl rfl rfl rfl rfl
  refine ⟨h.1, h.2.2 ?_ [c1w_file] rfl c1w_file (List.mem_singleton.mpr rfl)⟩
  intro δp hmem
  simp only [c1w_diff, List.mem_singleton] at hmem
  subst hmem
  rfl

/-! ## Claims C8 and C9 -/

/-- The example hunk H1(old_start=10, old_count=5) of the spec. -/
def gap_h1 : DiffHunk :=
  { header := "", lines := [], old_start := 10, old_count := 5,
    new_start := 10, new_count := 5 }

/-- The example hunk H2(old_start=30, old_count=3) of the spec. -/
def gap_h2 : DiffHunk :=
  { header := "", lines := [], old_start := 30, old_count := 3,
    new_start := 30, new_count := 3 }

/-- A trivial blob reader for the gap witnesses. -/
def reader0 : PathBuf → List String := fun _ => []

/-- C8: every gap `calculate_gap` returns has old_start equal to the
previous hunk's old_start plus old_count (1 when no hunk precedes), old_end
equal to the next hunk's old_start minus 1 (the last file line when none
follows), symmetrically on the new side, with size equal to old_end minus
old_start plus 1 clamped non-negative; the spec's example hunks (10,5) and
(30,3) yield the gap [15,29] of size 15; and fetching the same gap twice
yields identical content. -/
theorem c8_gap_bounds (prev next : Option DiffHunk) (L1 L2 : Int)
    (g : ContextGap) (hok : calculate_gap prev next L1 L2 = .ok g) :
    g.old_start = (match prev with
      | some h => (h.old_start : Int) + (h.old_count : Int)
      | none => 1)
    ∧ g.old_end = (match next with
      | some h => (h.old_start : Int) - 1
      | none => L1)
    ∧ g.new_start = (match prev with
      | some h => (h.new_start : Int) + (h.new_count : Int)
      | none => 1)
    ∧ g.new_end = (match next with
      | some h => (h.new_start : Int) - 1
      | none => L2)
    ∧ g.size = max 0 (g.old_end - g.old_start + 1)
    ∧ calculate_gap (some gap_h1) (some gap_h2) 100 100
        = .ok { old_start := 15, old_end := 29, new_start := 15,
                new_end := 29, size := 15 }
    ∧ ∀ (reader : PathBuf → List String) (file : PathBuf) (s e : Int),
        fetch_context_lines reader file s e = fetch_context_lines reader file s e := by
  simp only [calculate_gap] at hok
  by_cases hcond : spec_old_gap_size prev next L1 = spec_new_gap_size prev next L2
  · rw [if_pos hcond] at hok
    injection hok with hok2
    subst hok2
    refine ⟨?_, ?_, ?_, ?_, rfl, by decide, fun _ _ _ _ => rfl⟩
    · cases prev <;> rfl
    · cases next <;> rfl
    · cases prev <;> rfl
    · cases next <;> rfl
  · rw [if_neg hcond] at hok
    cases hok

/-- Witness for C8 at the spec's example hunks. -/
theorem c8_witness :
    (⟨15, 29, 15, 29, 15⟩ : ContextGap).old_start
        = (gap_h1.old_start : Int) + (gap_h1.old_count : Int)
    ∧ (⟨15, 29, 15, 29, 15⟩ : ContextGap).old_end = (gap_h2.old_start : Int) - 1
    ∧ calculate_gap (some gap_h1) (some gap_h2) 100 100
        = .ok { old_start := 15, old_end := 29, new_start := 15,
                new_end := 29, size := 15 }
    ∧ fetch_context_lines reader0 pFoo 15 29 = fetch_context_lines reader0 pFoo 15 29 := by
  have h := c8_gap_bounds (some gap_h1) (some gap_h2) 100 100
    ⟨15, 29, 15, 29, 15⟩ (by decide)
  exact ⟨h.1, h.2.1, h.2.2.2.2.2.1, h.2.2.2.2.2.2 reader0 pFoo 15 29⟩

/-- C9: `calculate_gap` checks the old-side and new-side gap sizes for
equality and fails with `GapIntegrityError` exactly when they disagree; on
success the returned size equals both spec formulas (nothing truncated or
corrected) and is never negative; and `GapIntegrityError` is its only
failure. -/
theorem c9_gap_integrity (prev next : Option DiffHunk) (L1 L2 : Int) :
    (calculate_gap prev next L1 L2 = .error .gapIntegrity
      ↔ spec_old_gap_size prev next L1 ≠ spec_new_gap_size prev next L2)
    ∧ (∀ g, calculate_gap prev next L1 L2 = .ok g →
        g.size = spec_old_gap_size prev next L1
        ∧ g.size = spec_new_gap_size prev next L2
        ∧ 0 ≤ g.size)
    ∧ (∀ e, calculate_gap prev next L1 L2 = .error e → e = .gapIntegrity) := by
  by_cases hcond : spec_old_gap_size prev next L1 = spec_new_gap_size prev next L2
  · have hc : calculate_gap prev next L1 L2 =
        .ok { old_start := gap_old_start prev, old_end := gap_old_end next L1,
              new_start := gap_new_start prev, new_end := gap_new_end next L2,
              size := spec_old_gap_size prev next L1 } := by
      simp only [calculate_gap]
      rw [if_pos hcond]
    refine ⟨⟨fun h => ?_, fun hne => absurd hcond hne⟩, ?_, ?_⟩
    · rw [hc] at h; cases h
    · intro g hg
      rw [hc] at hg
      injection hg with hg2
      subst hg2
      exact ⟨rfl, hcond, le_max_left 0 _⟩
    · intro e he; rw [hc] at he; cases he
  · have hc : calculate_gap prev next L1 L2 = .error .gapIntegrity := by
      simp only [calculate_gap]
      rw [if_neg hcond]
    refine ⟨⟨fun _ => hcond, fun _ => hc⟩, ?_, ?_⟩
    · intro g hg; rw [hc] at hg; cases hg
    · intro e he
      rw [hc] at he
      injection he with he2
      exact he2.symm

/-- A malformed neighbour pair: mismatched old/new counts on the first hunk
make the old gap 15 lines but the new gap 14. -/
def gap_h1bad : DiffHunk :=
  { header := "", lines := [], old_start := 10, old_count := 5,
    new_start := 10, new_count := 6 }

/-- Witness for C9: the mismatched pair is rejected with
`GapIntegrityError`, and a well-formed gap has non-negative size that equals
the spec formula. -/
theorem c9_witness :
    calculate_gap (some gap_h1bad) (some gap_h2) 50 50 = .error .gapIntegrity
    ∧ (0 : Int) ≤ (⟨15, 29, 15, 29, 15⟩ : ContextGap).size := by
  have h := c9_gap_integrity (some gap_h1bad) (some gap_h2) 50 50
  have h2 := c9_gap_integrity (some gap_h1) (some gap_h2) 100 100
  exact ⟨h.1.mpr (by decide), (h2.2.1 ⟨15, 29, 15, 29, 15⟩ (by decide)).2.2⟩

end Tuicr
